import Mathlib

/-!
Verification of the reconciliation engine of a multi-source product-data
comparison tool. The engine merges per-source product records by SKU,
detects price/name/attribute discrepancies, and compares attribute values
extracted from product titles with values recorded natively by each source.

The definitions below are shallow embeddings of the Python source:
  - `normalizeValue`  embeds `name_parser._normalize_value`
  - `matchValue`      embeds `name_parser._match_value`
  - `parseNameBucketSize` embeds the Bucket Size rule of `name_parser.parse_name`
  - `parseWeight`     embeds `comparator._parse_weight`
  - `mergeBySku`      embeds `comparator.merge_by_sku`
  - `findPriceDifferences` embeds `comparator.find_price_differences`
  - `findNameDifferences`  embeds `comparator.find_name_differences`
  - `weightComparison` embeds the weight block of `comparator.find_attribute_differences`
  - `allMatch`, `cellStatus` embed `grid_view._all_match` and the per-cell
    status computation of `grid_view.build_grid`

Python strings are modelled as `String` (operated on through `List Char`),
Python floats holding decimal quantities as `ℚ`, and Python `None` results
as `Option`. `Char.toLower` models `str.lower` on the ASCII range, which
covers every character class the tool manipulates.
-/

set_option maxRecDepth 4000

namespace DataRecon

/-! ## Python-style character and string primitives -/

/-- Characters matched by the regex class `\s` (ASCII range). -/
def isPySpace (c : Char) : Bool :=
  c = ' ' || c = '\t' || c = '\n' || c = '\r' || c = Char.ofNat 11 || c = Char.ofNat 12

/-- The straight double quote character. -/
def quoteCh : Char := Char.ofNat 34

/-- The straight apostrophe character. -/
def aposCh : Char := Char.ofNat 39

/-- Left typographic double quote. -/
def ldqCh : Char := Char.ofNat 8220

/-- Right typographic double quote. -/
def rdqCh : Char := Char.ofNat 8221

/-- Double prime. -/
def dprimeCh : Char := Char.ofNat 8243

/-- Left typographic single quote. -/
def lsqCh : Char := Char.ofNat 8216

/-- Right typographic single quote. -/
def rsqCh : Char := Char.ofNat 8217

/-- Single prime. -/
def sprimeCh : Char := Char.ofNat 8242

/-- En dash. -/
def enDashCh : Char := Char.ofNat 8211

/-- Em dash. -/
def emDashCh : Char := Char.ofNat 8212

/-- The backslash character. -/
def backslashCh : Char := Char.ofNat 92

/-- Python `str.strip()` on a character list. -/
def pyStripL (l : List Char) : List Char :=
  ((l.dropWhile isPySpace).reverse.dropWhile isPySpace).reverse

theorem length_dropWhile_le {α : Type} (p : α → Bool) (l : List α) :
    (l.dropWhile p).length ≤ l.length := by
  induction l with
  | nil => simp [List.dropWhile]
  | cons a t ih =>
    by_cases h : p a
    · simp only [List.dropWhile, h]
      exact Nat.le_succ_of_le ih
    · simp [List.dropWhile, h]

/-- Membership of a character in a character list, by codepoint. -/
def chMem (c : Char) (l : List Char) : Bool := l.contains c

/-! ## The value normalizer (`name_parser._normalize_value`)

```
if not val: return ""
s = str(val).strip().lower()
s = s.replace('“','"').replace('”','"').replace('″','"')
s = s.replace('‘',"'").replace('’',"'").replace('′',"'")
s = s.replace('–','-').replace('—','-')
s = re.sub(r'\s*(mm|tons?|lbs?|in|inches|")\s*$', '', s)
s = re.sub(r'(\d)\s*mm', r'\1mm', s)
s = re.sub(r'\s+', ' ', s)
s = s.replace('\\,', ',')
s = s.replace(',', '').replace('"', '').replace("'", '')
s = s.rstrip('/')
```
-/

/-- One-to-one glyph substitutions performed by `_normalize_value` (smart
quotes and primes to ASCII quote marks, en/em dashes to hyphen). Each raw
`str.replace` rewrites a single character to a single character and no
replacement output is a later replacement input, so the sequential
replaces equal one map. -/
def glyphMap (c : Char) : Char :=
  if c = ldqCh || c = rdqCh || c = dprimeCh then quoteCh
  else if c = lsqCh || c = rsqCh || c = sprimeCh then aposCh
  else if c = enDashCh || c = emDashCh then '-' else c

/-- The unit alternatives of the regex `\s*(mm|tons?|lbs?|in|inches|")\s*$`. -/
def unitTokens : List (List Char) :=
  [['m', 'm'], ['t', 'o', 'n'], ['t', 'o', 'n', 's'], ['l', 'b'], ['l', 'b', 's'],
   ['i', 'n'], ['i', 'n', 'c', 'h', 'e', 's'], [quoteCh]]

/-- Does `\s*(unit)\s*$` match the whole remaining suffix `l`?  Every unit
alternative starts with a non-space character, so the leading `\s*` must
consume exactly the maximal whitespace run. -/
def unitAtEnd (l : List Char) : Bool :=
  let r := l.dropWhile isPySpace
  unitTokens.any (fun u => u.isPrefixOf r && (r.drop u.length).all isPySpace)

/-- `re.sub(r'\s*(mm|tons?|lbs?|in|inches|")\s*$', '', s)`: remove the
leftmost match, which necessarily extends to the end of the string. -/
def stripUnitSuffix : List Char → List Char
  | [] => []
  | c :: rest => if unitAtEnd (c :: rest) then [] else c :: stripUnitSuffix rest

/-- Fuelled scanner for `re.sub(r'(\d)\s*mm', r'\1mm', s)`: collapse the
whitespace between a digit and `mm`, scanning left to right over
non-overlapping matches. The fuel only serves structural termination; each
call site supplies at least the length of the list, which the scanner never
needs more of. -/
def collapseMmF : ℕ → List Char → List Char
  | 0, l => l
  | _ + 1, [] => []
  | f + 1, c :: rest =>
    if c.isDigit then
      match rest.dropWhile isPySpace with
      | 'm' :: 'm' :: r3 => c :: 'm' :: 'm' :: collapseMmF f r3
      | _ => c :: collapseMmF f rest
    else c :: collapseMmF f rest

/-- `re.sub(r'(\d)\s*mm', r'\1mm', s)`. -/
def collapseMm (l : List Char) : List Char := collapseMmF l.length l

/-- `re.sub(r'\s+', ' ', s)`: each maximal whitespace run becomes a single
space (emitted at the end of the run). -/
def squeezeSpaces : List Char → List Char
  | [] => []
  | [c] => [if isPySpace c then ' ' else c]
  | c :: d :: rest =>
    if isPySpace c && isPySpace d then squeezeSpaces (d :: rest)
    else (if isPySpace c then ' ' else c) :: squeezeSpaces (d :: rest)

/-- `s.replace('\\,', ',')`: rewrite each backslash-comma pair to a comma,
left to right, non-overlapping. -/
def unescapeComma : List Char → List Char
  | [] => []
  | c :: ',' :: r2 =>
    if c = backslashCh then ',' :: unescapeComma r2
    else c :: unescapeComma (',' :: r2)
  | c :: rest => c :: unescapeComma rest

/-- `s.rstrip('/')`. -/
def rstripSlash (l : List Char) : List Char :=
  (l.reverse.dropWhile (fun c => c = '/')).reverse

/-- Embedding of `name_parser._normalize_value`. -/
def normalizeValue (val : String) : String :=
  if val = "" then "" else
  let s1 := (pyStripL val.data).map Char.toLower
  let s2 := s1.map glyphMap
  let s3 := stripUnitSuffix s2
  let s4 := collapseMm s3
  let s5 := squeezeSpaces s4
  let s6 := unescapeComma s5
  let s7 := s6.filter (fun c => !(c = ',' || c = quoteCh || c = aposCh))
  String.mk (rstripSlash s7)

/-! ## Numeric tokens and Python float conversion -/

/-- Characters matched by the regex class `[\d.]`. -/
def isNumCh (c : Char) : Bool := c.isDigit || c = '.'

/-- `re.findall(r'[\d.]+', s)`: the maximal runs of digits and dots. A
numeric character either opens a fresh token (when the next character is not
numeric) or is prepended to the token the rest of the scan opened. -/
def numTokens : List Char → List (List Char)
  | [] => []
  | c :: rest =>
    if isNumCh c then
      match rest with
      | [] => [[c]]
      | d :: _ =>
        if isNumCh d then
          match numTokens rest with
          | t :: tt => (c :: t) :: tt
          | [] => [[c]]
        else [c] :: numTokens rest
    else numTokens rest

/-- Value of a digit string, most significant digit first. -/
def digitsVal (l : List Char) : ℕ :=
  l.foldl (fun n c => 10 * n + (c.toNat - 48)) 0

/-- Python `float(tok)` for a token drawn from `[\d.]+`: it succeeds iff the
token has at least one digit and at most one dot (`float('1.')` and
`float('.5')` succeed, `float('1.2.3')` and `float('.')` raise). -/
def pyFloat (tok : List Char) : Option ℚ :=
  if tok.any Char.isDigit then
    let dots := (tok.filter (fun c => c = '.')).length
    if dots = 0 then some (digitsVal tok : ℚ)
    else if dots = 1 then
      let ip := tok.takeWhile (fun c => c ≠ '.')
      let fp := (tok.dropWhile (fun c => c ≠ '.')).drop 1
      some ((digitsVal ip : ℚ) + (digitsVal fp : ℚ) / ((10 : ℚ) ^ fp.length))
    else none
  else none

/-! ## The equivalence resolver (`name_parser._match_value`) -/

/-- The static synonym table of `_match_value`: sets of interchangeable
normalized phrases, each paired with the verdict returned when both values
fall in the set (always `True` in the source). -/
def synonyms : List (List String × Bool) :=
  [(["excavators", "excavator", "excavator attachment"], true),
   (["mini excavators", "mini excavator", "mini excavator attachment"], true),
   (["skid steer", "skid steer attachment", "skid steer loader"], true),
   (["pin on", "pin on style", "pin on coupler", "pin on style coupler",
     "no quick coupler pin on coupler", "backhoe pin on style",
     "backhoe pin on coupler", "bolt-on adapter"], true),
   (["bobcat x-change coupler", "bobcat x-change", "bobcat style", "bobcat x-change style"], true),
   (["john deere wedge lock coupler", "john deere wedge lock", "john deere style",
     "jd wedge lock", "deere wedge lock coupler", "deere style"], true),
   (["kubota wedge lock coupler", "kubota wedge lock", "kubota style",
     "kubota wedge style", "kubota wedge lock style"], true),
   (["cat pin grabber coupler", "cat pin grabber", "cat pin grabber style"], true),
   (["dual lock hydraulic quick coupler", "dual lock hqc", "dual lock coupler"], true)]

/-- Python `sep.split` on a single-character separator (keeps empty parts). -/
def splitOnCh (sep : Char) : List Char → List (List Char)
  | [] => [[]]
  | c :: rest =>
    if c = sep then [] :: splitOnCh sep rest
    else
      match splitOnCh sep rest with
      | [] => [[c]]
      | h :: t => (c :: h) :: t

/-- Python substring containment `pat in l`. -/
def isSubList (pat : List Char) : List Char → Bool
  | [] => pat.isEmpty
  | c :: t => pat.isPrefixOf (c :: t) || isSubList pat t

/-- The dual-value block of `_match_value`: when the normalized parsed value
contains `|`, split the raw parsed value on `|`, normalize each part, and
return `True` iff some part equals the normalized actual value or has an
identical non-empty numeric-token sequence. -/
def dualValueCheck (parsedVal a : String) : Bool :=
  ((splitOnCh '|' parsedVal.data).map (fun x => normalizeValue (String.mk x))).any
    (fun part =>
      part = a ||
      (let pn := numTokens part.data
       let an := numTokens a.data
       !pn.isEmpty && !an.isEmpty && pn = an))

/-- The comma block of `_match_value`: scan the comma-separated parts of the
normalized actual value; a part whose normalization equals the parsed value
returns `True`, a part falling in a common synonym set returns that set's
verdict, and no hit falls through (`none`). -/
def commaScan (p : String) : List (List Char) → Option Bool
  | [] => none
  | part :: rest =>
    let pn := normalizeValue (String.mk (pyStripL part))
    if pn = p then some true
    else
      match synonyms.find? (fun sr => sr.1.contains p && sr.1.contains pn) with
      | some sr => some sr.2
      | none => commaScan p rest

/-- Embedding of `name_parser._match_value`. Returns `none` for the Python
`None` (incomparable), `some true` for `True` (match), `some false` for
`False` (mismatch). -/
def matchValue (parsedVal actualVal : String) : Option Bool :=
  let p := normalizeValue parsedVal
  let a := normalizeValue actualVal
  if p = "" || a = "" then none
  else if p = a then some true
  else if p.data.contains '|' then some (dualValueCheck parsedVal a)
  else
    match synonyms.find? (fun sr => sr.1.contains p && sr.1.contains a) with
    | some sr => some sr.2
    | none =>
      let commaRes := if a.data.contains ',' then commaScan p (splitOnCh ',' a.data) else none
      match commaRes with
      | some r => some r
      | none =>
        let pn := numTokens p.data
        let an := numTokens a.data
        let contained : Option Bool :=
          if isSubList p.data a.data || isSubList a.data p.data then some true else some false
        if !pn.isEmpty && !an.isEmpty then
          if pn = an then some true
          else
            match pn, an with
            | [x], [y] =>
              match pyFloat x, pyFloat y with
              | some q1, some q2 => some (decide (|q1 - q2| < 1 / 10))
              | _, _ => contained
            | _, _ => contained
        else contained

/-! ## Rounding (`round(x, 2)`)

Python `round` uses round-half-to-even. Decimal quantities are modelled as
exact rationals. -/

/-- Floor of a rational, computed from the reduced numerator and positive
denominator (kernel-reducible, unlike the `Int.floor` projection). -/
def qfloor (q : ℚ) : ℤ := q.num.fdiv q.den

/-- Round-half-to-even to an integer. -/
def roundHalfEven (q : ℚ) : ℤ :=
  let f := qfloor q
  let r := q - (f : ℚ)
  if r < 1 / 2 then f
  else if 1 / 2 < r then f + 1
  else if f % 2 = 0 then f else f + 1

/-- Python `round(q, 2)`. -/
def round2 (q : ℚ) : ℚ := (roundHalfEven (q * 100) : ℚ) / 100

/-! ## Weight parsing (`comparator._parse_weight`) -/

/-- Embedding of `comparator._parse_weight`: first numeric token of the
stripped, lowered, comma-free text; converted from kg when the text contains
`kg`; `none` when there is no token or `float` fails. -/
def parseWeight (val : String) : Option ℚ :=
  if val = "" then none else
  let s := ((pyStripL val.data).map Char.toLower).filter (fun c => c ≠ ',')
  match numTokens s with
  | [] => none
  | tok :: _ =>
    match pyFloat tok with
    | none => none
    | some w =>
      let w2 := if isSubList ['k', 'g'] s then round2 (w * (220462 / 100000 : ℚ)) else w
      some (round2 w2)

/-! ## The Bucket Size rule of `name_parser.parse_name`

```
title = title.strip()
m = re.match(r'^(\d+(?:\.\d+)?)["“”″]\s', title)
if m:
    attrs["Bucket Size"] = f'{m.group(1)}"'
```
This is the only statement of `parse_name` that writes the "Bucket Size"
label. -/

/-- The quote glyphs accepted by the leading-size pattern. -/
def isQuoteGlyph (c : Char) : Bool :=
  c = quoteCh || c = ldqCh || c = rdqCh || c = dprimeCh

/-- Anchored match of `^(\d+(?:\.\d+)?)["“”″]\s`, returning the captured
numeric token. `\d+` and the optional `(?:\.\d+)?` can only match maximally:
shortening either leaves a digit (never a quote glyph) as the next
character, so no backtracked alternative can succeed when the maximal one
fails. -/
def sizeMatch (l : List Char) : Option (List Char) :=
  if (l.takeWhile Char.isDigit).isEmpty then none else
  match l.drop (l.takeWhile Char.isDigit).length with
  | '.' :: r2 =>
    if (r2.takeWhile Char.isDigit).isEmpty then none
    else
      match r2.drop (r2.takeWhile Char.isDigit).length with
      | q :: sp :: _ =>
        if isQuoteGlyph q && isPySpace sp then
          some (l.takeWhile Char.isDigit ++ '.' :: r2.takeWhile Char.isDigit)
        else none
      | _ => none
  | q :: sp :: _ =>
    if isQuoteGlyph q && isPySpace sp then some (l.takeWhile Char.isDigit) else none
  | _ => none

/-- The "Bucket Size" value of `parse_name`: `none` when the label is left
unset, `some v` when the label is set to `v`. -/
def parseNameBucketSize (title : String) : Option String :=
  if title = "" then none
  else (sizeMatch (pyStripL title.data)).map (fun t => String.mk (t ++ [quoteCh]))

/-- The maximal prefix of `l` matching `\d+(?:\.\d+)?` (empty when `l` does
not start with a digit): the "leading numeric token" of a title. -/
def leadingSizeToken (l : List Char) : List Char :=
  match l.drop (l.takeWhile Char.isDigit).length with
  | '.' :: r2 =>
    if !(l.takeWhile Char.isDigit).isEmpty && !(r2.takeWhile Char.isDigit).isEmpty then
      l.takeWhile Char.isDigit ++ '.' :: r2.takeWhile Char.isDigit
    else l.takeWhile Char.isDigit
  | _ => l.takeWhile Char.isDigit

/-- The character immediately following the leading numeric token. -/
def charAfterLeadingToken (l : List Char) : Option Char :=
  (l.drop (leadingSizeToken l).length).head?

/-! ## Lexicographic string order (Python `sorted` on `str`)

Python compares strings by code point, which is exactly the `List.lt` order
of core Lean on the underlying character lists. The Boolean comparator
below is kernel-reducible; `lexLt_iff_lt` ties it to `List.lt`. -/

/-- Strict code-point lexicographic order. -/
def lexLt : List Char → List Char → Bool
  | [], [] => false
  | [], _ :: _ => true
  | _ :: _, [] => false
  | a :: as, b :: bs => if a < b then true else if b < a then false else lexLt as bs

/-- Non-strict comparator used for sorting SKUs. -/
def strLe (a b : String) : Bool := !(lexLt b.data a.data)

/-! ## Data model: source records and merged rows -/

/-- One normalized per-product record of one source (the unified row format
produced by the loaders: `product_name`, `sku`, `price`, `sale_price`,
`category`, `status`). `none` models a missing/NaN entry. -/
structure SourceRecord where
  sku : String
  product_name : String
  price : Option ℚ
  sale_price : Option ℚ
  category : String
  status : String
deriving DecidableEq, Repr

/-- The per-source slice of a merged row: the `name_S`/`price_S`/
`sale_price_S`/`category_S`/`status_S`/`in_S` columns for one source `S`. -/
structure MergedCell where
  present : Bool
  name : Option String
  price : Option ℚ
  sale_price : Option ℚ
  category : Option String
  status : Option String
deriving DecidableEq, Repr

/-- One row of the merged table: the SKU plus one cell per source, in the
order the sources mapping lists them. -/
structure MergedRow where
  sku : String
  cells : List (String × MergedCell)
deriving DecidableEq, Repr

/-- The cell of one source for one SKU: the first record of the source with
that SKU if any (`df[df["sku"] == sku].iloc[0]`), else the absent cell. -/
def cellOf (df : List SourceRecord) (sku : String) : MergedCell :=
  match df.find? (fun r => r.sku == sku) with
  | some r => ⟨true, some r.product_name, r.price, r.sale_price, some r.category, some r.status⟩
  | none => ⟨false, none, none, none, none, none⟩

/-- Embedding of `comparator.merge_by_sku`: collect the distinct non-empty
SKUs of all sources, sort them ascending, and build one row per SKU with
one cell per source. -/
def mergeBySku (sources : List (String × List SourceRecord)) : List MergedRow :=
  let allSkus := (sources.flatMap (fun p => (p.2.filter (fun r => 0 < r.sku.length)).map
    (fun r => r.sku))).dedup
  (List.insertionSort (fun a b => strLe a b = true) allSkus).map
    (fun k => { sku := k, cells := sources.map (fun p => (p.1, cellOf p.2 k)) })

/-! ## Price-difference detector (`comparator.find_price_differences`) -/

/-- Python `max` over a non-empty list (the default is never reached by the
detectors, which guard with a length check first). -/
def qMax : List ℚ → ℚ
  | [] => 0
  | x :: xs => xs.foldl max x

/-- Python `min` over a non-empty list. -/
def qMin : List ℚ → ℚ
  | [] => 0
  | x :: xs => xs.foldl min x

/-- The first truthy `name_S` of a row in source order, else `""` (the
`name or ""` fallback of the detectors). -/
def firstNameOf (row : MergedRow) : String :=
  match row.cells.filterMap (fun sc =>
    match sc.2.name with
    | some n => if n ≠ "" then some n else none
    | none => none) with
  | [] => ""
  | n :: _ => n

/-- One output row of `find_price_differences`. -/
structure PriceDiffRow where
  sku : String
  product_name : String
  price_diff : ℚ
  prices : List (String × Option ℚ)
deriving DecidableEq, Repr

/-- The `(source, price)` pairs a merged row contributes: sources with
`in_S` true and a non-NaN `price_S`. -/
def rowPrices (row : MergedRow) : List (String × ℚ) :=
  row.cells.filterMap (fun sc =>
    if sc.2.present then sc.2.price.map (fun q => (sc.1, q)) else none)

/-- The prices a row contributes, without the source names. -/
def presentPrices (row : MergedRow) : List ℚ :=
  row.cells.filterMap (fun sc => if sc.2.present then sc.2.price else none)

/-- `max(prices) - min(prices)` of a row. -/
def spreadOf (row : MergedRow) : ℚ := qMax (presentPrices row) - qMin (presentPrices row)

/-- `min(prices)` of a row. -/
def minPriceOf (row : MergedRow) : ℚ := qMin (presentPrices row)

/-- The body of the `find_price_differences` loop for one merged row:
`none` models `continue`. -/
def priceDiffOfRow (tol tolPct : ℚ) (row : MergedRow) : Option PriceDiffRow :=
  let prices := rowPrices row
  if prices.length < 2 then none else
  let vals := prices.map (fun x => x.2)
  let maxP := qMax vals
  let minP := qMin vals
  let absDiff := maxP - minP
  if absDiff ≤ tol then none else
  if tolPct > 0 ∧ minP > 0 ∧ (absDiff / minP) * 100 ≤ tolPct then none else
  some { sku := row.sku, product_name := firstNameOf row, price_diff := round2 absDiff,
         prices := row.cells.map (fun sc => (sc.1, (prices.lookup sc.1))) }

/-- Embedding of `comparator.find_price_differences` with the configurable
`PRICE_TOLERANCE` and `PRICE_TOLERANCE_PERCENT` as parameters. -/
def findPriceDifferences (merged : List MergedRow) (tol tolPct : ℚ) : List PriceDiffRow :=
  merged.filterMap (priceDiffOfRow tol tolPct)

/-! ## Name-difference detector (`comparator.find_name_differences`) -/

/-- The nested `for i / for j in range(i+1, …)` loop shape: does some
ordered pair of list elements satisfy `P`? -/
def pairsAny {α : Type} (P : α → α → Bool) : List α → Bool
  | [] => false
  | x :: rest => rest.any (P x) || pairsAny P rest

/-- Must every ordered pair of list elements satisfy `P`? -/
def pairsAll {α : Type} (P : α → α → Bool) : List α → Bool
  | [] => true
  | x :: rest => rest.all (P x) && pairsAll P rest

/-- `str.lower` (ASCII model). -/
def lowerStr (s : String) : String := String.mk (s.data.map Char.toLower)

/-- One output row of `find_name_differences`. -/
structure NameDiffRow where
  sku : String
  names : List (String × String)
deriving DecidableEq, Repr

/-- The `(source, name)` pairs a merged row contributes: sources with `in_S`
true and a truthy `name_S`. -/
def rowNames (row : MergedRow) : List (String × String) :=
  row.cells.filterMap (fun sc =>
    if sc.2.present then
      match sc.2.name with
      | some n => if n ≠ "" then some (sc.1, n) else none
      | none => none
    else none)

/-- The body of the `find_name_differences` loop for one merged row. The
similarity function `sim` abstracts `fuzz.ratio`; the code lower-cases both
names before applying it. -/
def nameDiffOfRow (sim : String → String → ℕ) (thr : ℕ) (row : MergedRow) :
    Option NameDiffRow :=
  let names := rowNames row
  if names.length < 2 then none else
  if pairsAny (fun n1 n2 =>
      decide (sim (lowerStr n1) (lowerStr n2) < 100 ∧ thr ≤ sim (lowerStr n1) (lowerStr n2)))
      (names.map (fun x => x.2)) then
    some { sku := row.sku, names := row.cells.map (fun sc => (sc.1, (names.lookup sc.1).getD "")) }
  else none

/-- Embedding of `comparator.find_name_differences` with the similarity
function and `FUZZY_MATCH_THRESHOLD` as parameters. -/
def findNameDifferences (merged : List MergedRow) (sim : String → String → ℕ) (thr : ℕ) :
    List NameDiffRow :=
  merged.filterMap (nameDiffOfRow sim thr)

/-! ## Weight block of `comparator.find_attribute_differences`

For one product present in at least two sources, the detector parses each
source's raw weight text and keeps the value only when it is truthy
(`if w:` — a parsed `0.0` contributes nothing); with at least two kept
values it emits a row when the spread exceeds 0.5 lb. -/

/-- One weight-difference output row. -/
structure WeightDiffRow where
  attrLabel : String
  values : List (String × ℚ)
  diff : ℚ
deriving DecidableEq, Repr

/-- The weight comparison of `find_attribute_differences` for one product,
given the raw weight text of each source that carries the product. -/
def weightComparison (raws : List (String × String)) : Option WeightDiffRow :=
  let weights := raws.filterMap (fun sv =>
    match parseWeight sv.2 with
    | some w => if w ≠ 0 then some (sv.1, w) else none
    | none => none)
  if 2 ≤ weights.length then
    let vals := weights.map (fun x => x.2)
    if qMax vals - qMin vals > 1 / 2 then
      some { attrLabel := "Weight (lb)", values := weights,
             diff := round2 (qMax vals - qMin vals) }
    else none
  else none

/-! ## Per-cell status of the attribute grid (`grid_view`) -/

/-- `grid_view.DATA_ONLY_ATTRS`: attributes never expected in a product
name, evaluated ignoring the name-extracted value. -/
def DATA_ONLY_ATTRS : List String :=
  ["Center to Center", "Drain Holes", "Product Weight (lbs)", "Product Weight (kg)",
   "Capacity (m³)", "Add-on included", "Add-ons Included", "Front Ear to Ear",
   "Rear Ear to Ear"]

/-- Embedding of `grid_view._all_match`: fewer than two values (or fewer
than two non-blank values) trivially match; otherwise every ordered pair
must get verdict `True` from the equivalence resolver (`None` and `False`
both fail the `if not _match_value(...)` test). -/
def allMatch (values : List String) : Bool :=
  if values.length < 2 then true else
  let cleaned := values.filter (fun v => v ≠ "" && String.mk (pyStripL v.data) ≠ "")
  if cleaned.length < 2 then true else
  pairsAll (fun a b => matchValue a b == some true) cleaned

/-- The value set a grid cell is judged on: the three source values, plus
the name-extracted value unless the attribute is data-only; empty strings
are dropped (Python truthiness). -/
def gridVals (attrName nameVal zohoVal webVal googleVal : String) : List String :=
  (if attrName ∈ DATA_ONLY_ATTRS then [zohoVal, webVal, googleVal]
   else [nameVal, zohoVal, webVal, googleVal]).filter (fun v => v ≠ "")

/-- Embedding of the per-cell status computation of `grid_view.build_grid`:
empty / `PARTIAL` / `OK` / `MISMATCH`. -/
def cellStatus (attrName nameVal zohoVal webVal googleVal : String) : String :=
  let vals := gridVals attrName nameVal zohoVal webVal googleVal
  if vals = [] then "" else
  if vals.length = 1 then "PARTIAL" else
  if allMatch vals then "OK" else "MISMATCH"

/-! ## Properties of the lexicographic comparator -/

theorem lexLt_asymm {l₁ l₂ : List Char} (h₁ : lexLt l₁ l₂ = true)
    (h₂ : lexLt l₂ l₁ = true) : False := by
  induction l₁ generalizing l₂ with
  | nil => cases l₂ <;> simp [lexLt] at h₁ h₂
  | cons a as ih =>
    cases l₂ with
    | nil => simp [lexLt] at h₁
    | cons b bs =>
      simp only [lexLt] at h₁ h₂
      by_cases hab : a < b
      · have hba : ¬ b < a := lt_asymm hab
        simp [hab, hba] at h₁ h₂
      · by_cases hba : b < a
        · simp [hab, hba] at h₁
        · simp [hab, hba] at h₁ h₂
          exact ih h₁ h₂

theorem lexLt_connex {l₁ l₂ : List Char} (h₁ : lexLt l₁ l₂ = false)
    (h₂ : lexLt l₂ l₁ = false) : l₁ = l₂ := by
  induction l₁ generalizing l₂ with
  | nil =>
    cases l₂ with
    | nil => rfl
    | cons b bs => simp [lexLt] at h₁
  | cons a as ih =>
    cases l₂ with
    | nil => simp [lexLt] at h₂
    | cons b bs =>
      simp only [lexLt] at h₁ h₂
      by_cases hab : a < b
      · simp [hab] at h₁
      · by_cases hba : b < a
        · simp [hba, hab] at h₂
        · have hcc : a = b := le_antisymm (not_lt.mp hba) (not_lt.mp hab)
          subst hcc
          simp [hab] at h₁ h₂
          rw [ih h₁ h₂]

theorem lexLt_trans {l₁ l₂ l₃ : List Char} (h₁ : lexLt l₁ l₂ = true)
    (h₂ : lexLt l₂ l₃ = true) : lexLt l₁ l₃ = true := by
  induction l₁ generalizing l₂ l₃ with
  | nil =>
    cases l₃ with
    | nil => cases l₂ <;> simp [lexLt] at h₁ h₂
    | cons c cs => simp [lexLt]
  | cons a as ih =>
    cases l₂ with
    | nil => simp [lexLt] at h₁
    | cons b bs =>
      cases l₃ with
      | nil => simp [lexLt] at h₂
      | cons c cs =>
        simp only [lexLt] at h₁ h₂ ⊢
        rcases lt_trichotomy a b with hab | hab | hab
        · rcases lt_trichotomy b c with hbc | hbc | hbc
          · simp [lt_trans hab hbc]
          · subst hbc
            simp [hab]
          · simp [lt_asymm hbc, hbc] at h₂
        · subst hab
          rcases lt_trichotomy a c with hac | hac | hac
          · simp [hac]
          · subst hac
            simp [lt_irrefl a] at h₁ h₂ ⊢
            exact ih h₁ h₂
          · simp [lt_asymm hac, hac] at h₂
        · simp [lt_asymm hab, hab] at h₁

theorem lexLt_iff_lt (l₁ l₂ : List Char) : lexLt l₁ l₂ = true ↔ List.lt l₁ l₂ := by
  induction l₁ generalizing l₂ with
  | nil =>
    cases l₂ with
    | nil =>
      simp [lexLt]
      intro h
      cases h
    | cons b bs =>
      simp [lexLt]
      exact List.lt.nil b bs
  | cons a as ih =>
    cases l₂ with
    | nil =>
      simp [lexLt]
      intro h
      cases h
    | cons b bs =>
      simp only [lexLt]
      by_cases hab : a < b
      · simp [hab]
        exact List.lt.head as bs hab
      · by_cases hba : b < a
        · simp [hab, hba]
          intro h
          cases h with
          | head _ _ h => exact hab h
          | tail _ h2 _ => exact h2 hba
        · simp [hab, hba, ih]
          constructor
          · exact fun h => List.lt.tail hab hba h
          · intro h
            cases h with
            | head _ _ h => exact absurd h hab
            | tail _ _ h3 => exact h3

instance : IsTotal String (fun a b => strLe a b = true) := by
  constructor
  intro a b
  rcases Bool.eq_false_or_eq_true (lexLt b.data a.data) with h | h
  · right
    rcases Bool.eq_false_or_eq_true (lexLt a.data b.data) with h2 | h2
    · exact absurd (lexLt_asymm h2 h) (fun f => f)
    · simp [strLe, h2]
  · left
    simp [strLe, h]

instance : IsTrans String (fun a b => strLe a b = true) := by
  constructor
  intro a b c hab hbc
  simp only [strLe, Bool.not_eq_true'] at hab hbc ⊢
  rcases Bool.eq_false_or_eq_true (lexLt c.data a.data) with h | h
  · exfalso
    rcases Bool.eq_false_or_eq_true (lexLt a.data b.data) with h2 | h2
    · rcases Bool.eq_false_or_eq_true (lexLt b.data c.data) with h3 | h3
      · exact lexLt_asymm (lexLt_trans h2 h3) h
      · have hbc2 : b.data = c.data := lexLt_connex h3 hbc
        rw [hbc2] at h2
        exact lexLt_asymm h2 h
    · have hab2 : a.data = b.data := lexLt_connex h2 hab
      rw [hab2] at h
      simp [h] at hbc
  · exact h

theorem string_eq_of_data_eq {a b : String} (h : a.data = b.data) : a = b := by
  cases a
  cases b
  exact congrArg String.mk h

/-! ## Ordered-pair scan lemmas -/

theorem pairsAny_iff {α : Type} (P : α → α → Bool) (l : List α) :
    pairsAny P l = true ↔
      ∃ l1 x l2 y l3, l = l1 ++ x :: l2 ++ y :: l3 ∧ P x y = true := by
  induction l with
  | nil =>
    simp only [pairsAny]
    constructor
    · intro h
      cases h
    · rintro ⟨l1, x, l2, y, l3, h, -⟩
      cases l1 <;> simp at h
  | cons a rest ih =>
    simp only [pairsAny, Bool.or_eq_true, List.any_eq_true, ih]
    constructor
    · rintro (⟨y, hy, hP⟩ | ⟨l1, x, l2, y, l3, heq, hP⟩)
      · obtain ⟨l2, l3, rfl⟩ := List.append_of_mem hy
        exact ⟨[], a, l2, y, l3, rfl, hP⟩
      · exact ⟨a :: l1, x, l2, y, l3, by rw [heq]; rfl, hP⟩
    · rintro ⟨l1, x, l2, y, l3, heq, hP⟩
      cases l1 with
      | nil =>
        simp only [List.nil_append, List.cons.injEq] at heq
        obtain ⟨rfl, rfl⟩ := heq
        exact Or.inl ⟨y, by simp, hP⟩
      | cons b l1t =>
        simp only [List.cons_append, List.cons.injEq] at heq
        obtain ⟨rfl, rfl⟩ := heq
        exact Or.inr ⟨l1t, x, l2, y, l3, rfl, hP⟩

theorem pairsAll_iff {α : Type} (P : α → α → Bool) (l : List α) :
    pairsAll P l = true ↔
      ∀ l1 x l2 y l3, l = l1 ++ x :: l2 ++ y :: l3 → P x y = true := by
  induction l with
  | nil =>
    simp only [pairsAll]
    constructor
    · intro _ l1 x l2 y l3 h
      cases l1 <;> simp at h
    · intro _
      trivial
  | cons a rest ih =>
    simp only [pairsAll, Bool.and_eq_true, List.all_eq_true, ih]
    constructor
    · rintro ⟨hhead, htail⟩ l1 x l2 y l3 heq
      cases l1 with
      | nil =>
        simp only [List.nil_append, List.cons.injEq] at heq
        obtain ⟨rfl, rfl⟩ := heq
        exact hhead y (by simp)
      | cons b l1t =>
        simp only [List.cons_append, List.cons.injEq] at heq
        obtain ⟨rfl, rfl⟩ := heq
        exact htail l1t x l2 y l3 rfl
    · intro h
      constructor
      · intro y hy
        obtain ⟨l2, l3, rfl⟩ := List.append_of_mem hy
        exact h [] a l2 y l3 rfl
      · intro l1 x l2 y l3 heq
        exact h (a :: l1) x l2 y l3 (by rw [heq]; rfl)

/-! ## Keyed filterMap lemma shared by the detectors -/

theorem exists_mem_filterMap_key {β : Type} (f : MergedRow → Option β) (key : β → String)
    (hkey : ∀ r b, f r = some b → key b = r.sku)
    (merged : List MergedRow) (row : MergedRow) (hrow : row ∈ merged)
    (hnd : (merged.map (fun r => r.sku)).Nodup) :
    (∃ d ∈ merged.filterMap f, key d = row.sku) ↔ (f row).isSome := by
  constructor
  · rintro ⟨d, hd, hkd⟩
    rw [List.mem_filterMap] at hd
    obtain ⟨r, hr, hfr⟩ := hd
    have hsku : r.sku = row.sku := by rw [← hkey r d hfr]; exact hkd
    have : r = row := List.inj_on_of_nodup_map hnd hr hrow hsku
    rw [← this, hfr]
    rfl
  · intro h
    obtain ⟨b, hb⟩ := Option.isSome_iff_exists.mp h
    exact ⟨b, List.mem_filterMap.mpr ⟨row, hrow, hb⟩, hkey row b hb⟩

/-! ## Claims -/

/-- C3: the specification demands that the value normalizer be idempotent
(`normalize(normalize(s)) == normalize(s)` for all strings `s`), but the
code is not: `_normalize_value` strips one trailing unit token per
application, so `"mm mm"` normalizes to `"mm"`, which normalizes further to
`""`. The theorem evaluates the embedded code at this failing input. -/
theorem claim_C3_normalize_not_idempotent :
    normalizeValue "mm mm" = "mm" ∧ normalizeValue "mm" = "" ∧
    normalizeValue (normalizeValue "mm mm") ≠ normalizeValue "mm mm" := by
  decide

/-- C4: the claim says that whenever the second argument is comma-separated,
`_match_value` splits it on commas and returns Match if the first argument
matches any part under the exact-equality or synonym-set rules. The code
cannot do this: `_normalize_value` deletes every comma (after unescaping
`\,`), so the `if "," in a:` branch never fires. At the input below,
`"bobcat style"` and the comma-separated part `" bobcat x-change"` of the
second argument normalize into the same static synonym set, yet the
verdict is `False` (mismatch), not `True`. -/
theorem claim_C4_comma_split_dead :
    matchValue "bobcat style" "kubota style, bobcat x-change" = some false ∧
    (∃ sr ∈ synonyms, normalizeValue "bobcat style" ∈ sr.1 ∧
      normalizeValue " bobcat x-change" ∈ sr.1) ∧
    ((normalizeValue "kubota style, bobcat x-change").data.contains ',') = false := by
  refine ⟨by decide, ⟨(["bobcat x-change coupler", "bobcat x-change", "bobcat style",
    "bobcat x-change style"], true), by decide, by decide, by decide⟩, by decide⟩

/-- C5 (counterexample): the claim that `_match_value(x, x)` returns Match
for every non-empty `x` fails at `x = "mm"`: normalization strips the unit
token leaving the empty string, so the resolver returns `None`
(incomparable), not `True`. -/
theorem claim_C5_counterexample :
    matchValue "mm" "mm" = none ∧ ("mm" : String) ≠ "" ∧
    matchValue "mm" "mm" ≠ some true := by
  decide

/-- C5 (amended): the equivalence resolver is reflexive on every string
whose normalized form is non-empty: `_match_value(x, x)` returns `True`
through the exact-equality rule. -/
theorem claim_C5_matchValue_refl (x : String) (h : normalizeValue x ≠ "") :
    matchValue x x = some true := by
  unfold matchValue
  simp [h]

/-- Witness for C5: the amended reflexivity theorem applied at `"45"`. -/
theorem claim_C5_witness :
    normalizeValue "45" ≠ "" ∧ matchValue "45" "45" = some true :=
  ⟨by decide, claim_C5_matchValue_refl "45" (by decide)⟩

/-- C6: dual-value matching. `_match_value("45mm | 38mm Pins", "38mm")` is
Match (the part `" 38mm Pins"` normalizes to `"38mm pins"`, whose numeric
token sequence `["38"]` equals that of `"38"`), and
`_match_value("45mm | 38mm Pins", "50mm")` is Mismatch. -/
theorem claim_C6_dual_value :
    matchValue "45mm | 38mm Pins" "38mm" = some true ∧
    matchValue "45mm | 38mm Pins" "50mm" = some false := by
  decide

/-- C10: in the attribute-difference detector, a weight text that parses to
`0` is dropped by the truthiness guard (`if w:`), so a product whose two
parsed weights are `{0, x}` keeps at most one value and never yields a
weight-difference row, whatever `x` and despite the 0.5 lb tolerance. -/
theorem claim_C10_zero_weight_no_row (s1 s2 v1 v2 : String) (x : ℚ)
    (h1 : parseWeight v1 = some 0) (h2 : parseWeight v2 = some x) :
    weightComparison [(s1, v1), (s2, v2)] = none ∧
    weightComparison [(s2, v2), (s1, v1)] = none := by
  unfold weightComparison
  by_cases hx : x = 0
  · subst hx
    simp [List.filterMap, h1, h2]
  · simp [List.filterMap, h1, h2, hx]

/-- Witness for C10: a zero weight against a genuine weight produces no
row. -/
theorem claim_C10_witness :
    parseWeight "0 lb" = some 0 ∧ parseWeight "1.5 lb" = some (3 / 2) ∧
    weightComparison [("website", "0 lb"), ("google", "1.5 lb")] = none := by
  have h1 : parseWeight "0 lb" = some 0 := by with_unfolding_all decide
  have h2 : parseWeight "1.5 lb" = some (3 / 2) := by with_unfolding_all decide
  exact ⟨h1, h2,
    (claim_C10_zero_weight_no_row "website" "google" "0 lb" "1.5 lb" (3 / 2) h1 h2).1⟩

/-- A successful leading-size match forces the character immediately after
the (maximal) leading numeric token to be a quote glyph. -/
theorem sizeMatch_some_quote {l : List Char} {tok : List Char}
    (h : sizeMatch l = some tok) :
    ∃ c, charAfterLeadingToken l = some c ∧ isQuoteGlyph c = true := by
  unfold sizeMatch at h
  unfold charAfterLeadingToken leadingSizeToken
  split at h
  · simp at h
  next h1 =>
    split at h
    next r2 heq =>
      split at h
      · simp at h
      next h2 =>
        split at h
        next q sp tl heq2 =>
          split at h
          next hq =>
            simp only [Bool.and_eq_true] at hq
            rw [heq]
            simp only [Bool.not_eq_true] at h1 h2
            simp only [h1, h2, Bool.not_false, Bool.and_self, if_true]
            refine ⟨q, ?_, hq.1⟩
            have h3 : (l.takeWhile Char.isDigit ++ '.' :: r2.takeWhile Char.isDigit).length
                = ((l.takeWhile Char.isDigit).length + 1) + (r2.takeWhile Char.isDigit).length := by
              simp only [List.length_append, List.length_cons]
              omega
            have key : l.drop (l.takeWhile Char.isDigit ++
                '.' :: r2.takeWhile Char.isDigit).length = q :: sp :: tl := by
              rw [h3, ← List.drop_drop, ← List.drop_drop, heq]
              simpa using heq2
            rw [key]
            rfl
          next hq => simp at h
        next heq2 => simp at h
    next q sp tl hne heq =>
      split at h
      next hq =>
        simp only [Bool.and_eq_true] at hq
        split
        next r2 heq2 =>
          rw [heq] at heq2
          injection heq2 with hh htl
          exact absurd hh hne
        next heq2 =>
          refine ⟨q, ?_, hq.1⟩
          rw [heq]
          rfl
      next hq => simp at h
    next heq => simp at h

/-- C7: when the leading numeric token of a (stripped) title is not
immediately followed by a straight or typographic quote glyph, `parse_name`
leaves the "Bucket Size" label unset — the anchored pattern demands a quote
glyph right after the number. -/
theorem claim_C7_bucket_size_guard (title : String)
    (h : ∀ c, charAfterLeadingToken (pyStripL title.data) = some c →
      isQuoteGlyph c = false) :
    parseNameBucketSize title = none := by
  unfold parseNameBucketSize
  by_cases ht : title = ""
  · simp [ht]
  · simp only [ht, if_false]
    rcases hm : sizeMatch (pyStripL title.data) with - | tok
    · rfl
    · obtain ⟨c, hc, hq⟩ := sizeMatch_some_quote hm
      rw [h c hc] at hq
      exact absurd hq (by simp)

/-- Witness for C7: `parse_name('800 Joules Energy Hammer')` does not
populate "Bucket Size" — the character after the leading `800` is a space.
-/
theorem claim_C7_witness :
    (∀ c, charAfterLeadingToken (pyStripL ("800 Joules Energy Hammer").data) = some c →
      isQuoteGlyph c = false) ∧
    parseNameBucketSize "800 Joules Energy Hammer" = none := by
  have hcap : ∀ c, charAfterLeadingToken (pyStripL ("800 Joules Energy Hammer").data) = some c →
      isQuoteGlyph c = false := by
    intro c hc
    have h8 : charAfterLeadingToken (pyStripL ("800 Joules Energy Hammer").data) = some ' ' := by
      decide
    rw [h8] at hc
    injection hc with hc2
    rw [← hc2]
    decide
  exact ⟨hcap, claim_C7_bucket_size_guard "800 Joules Energy Hammer" hcap⟩

/-! ## C2: the price-difference gate -/

theorem rowPrices_map_snd (row : MergedRow) :
    (rowPrices row).map (fun x => x.2) = presentPrices row := by
  unfold rowPrices presentPrices
  induction row.cells with
  | nil => rfl
  | cons sc rest ih =>
    simp only [List.filterMap_cons]
    by_cases hp : sc.2.present = true
    · simp only [hp, if_true]
      cases hq : sc.2.price with
      | none => simpa using ih
      | some q => simpa using ih
    · simp only [hp, Bool.false_eq_true, if_false]
      exact ih

theorem priceDiffOfRow_sku (tol tolPct : ℚ) (r : MergedRow) (b : PriceDiffRow)
    (h : priceDiffOfRow tol tolPct r = some b) : b.sku = r.sku := by
  simp only [priceDiffOfRow] at h
  split_ifs at h with h1 h2 h3
  injection h with h'
  rw [← h']

theorem priceDiffOfRow_price_diff (tol tolPct : ℚ) (r : MergedRow) (b : PriceDiffRow)
    (h : priceDiffOfRow tol tolPct r = some b) : b.price_diff = round2 (spreadOf r) := by
  simp only [priceDiffOfRow, rowPrices_map_snd] at h
  split_ifs at h with h1 h2 h3
  injection h with h'
  rw [← h']
  unfold spreadOf
  rfl

theorem priceDiffOfRow_isSome_iff (tol tolPct : ℚ) (row : MergedRow) (hpct : 0 ≤ tolPct) :
    (priceDiffOfRow tol tolPct row).isSome = true ↔
      (2 ≤ (presentPrices row).length ∧ tol < spreadOf row ∧
        (tolPct ≠ 0 ∧ 0 < minPriceOf row →
          tolPct < (spreadOf row / minPriceOf row) * 100)) := by
  have hlen : (rowPrices row).length = (presentPrices row).length := by
    rw [← rowPrices_map_snd row, List.length_map]
  unfold spreadOf minPriceOf
  simp only [priceDiffOfRow, rowPrices_map_snd]
  split_ifs with h1 h2 h3
  · simp only [Option.isSome_none, Bool.false_eq_true, false_iff]
    intro hc
    rw [← hlen] at hc
    omega
  · simp only [Option.isSome_none, Bool.false_eq_true, false_iff]
    intro hc
    exact absurd hc.2.1 (not_lt.mpr h2)
  · simp only [Option.isSome_none, Bool.false_eq_true, false_iff]
    intro hc
    have hlt := hc.2.2 ⟨ne_of_gt h3.1, h3.2.1⟩
    exact absurd h3.2.2 (not_le.mpr hlt)
  · simp only [Option.isSome_some, true_iff]
    refine ⟨by omega, not_le.mp h2, ?_⟩
    rintro ⟨hne, hmn⟩
    by_contra hle
    exact h3 ⟨lt_of_le_of_ne hpct (Ne.symm hne), hmn, not_lt.mp hle⟩

/-- C2: a merged row yields a price-difference row iff at least two sources
carry a present non-null price, the spread `max - min` exceeds the absolute
tolerance, and — when the percent tolerance is non-zero and the minimum is
positive — the relative spread `(max - min)/min * 100` exceeds the percent
tolerance as well; the emitted `price_diff` is `round(max - min, 2)`.
(The percent tolerance is a configuration value, assumed non-negative.) -/
theorem claim_C2_price_difference (merged : List MergedRow) (tol tolPct : ℚ)
    (row : MergedRow) (hpct : 0 ≤ tolPct) (hrow : row ∈ merged)
    (hnd : (merged.map (fun r => r.sku)).Nodup) :
    ((∃ d ∈ findPriceDifferences merged tol tolPct, d.sku = row.sku) ↔
      (2 ≤ (presentPrices row).length ∧ tol < spreadOf row ∧
        (tolPct ≠ 0 ∧ 0 < minPriceOf row →
          tolPct < (spreadOf row / minPriceOf row) * 100))) ∧
    (∀ d ∈ findPriceDifferences merged tol tolPct, d.sku = row.sku →
      d.price_diff = round2 (spreadOf row)) := by
  constructor
  · rw [show findPriceDifferences merged tol tolPct
        = merged.filterMap (priceDiffOfRow tol tolPct) from rfl,
      exists_mem_filterMap_key (priceDiffOfRow tol tolPct) (fun d => d.sku)
        (priceDiffOfRow_sku tol tolPct) merged row hrow hnd]
    exact priceDiffOfRow_isSome_iff tol tolPct row hpct
  · intro d hd hsku
    rw [show findPriceDifferences merged tol tolPct
        = merged.filterMap (priceDiffOfRow tol tolPct) from rfl,
      List.mem_filterMap] at hd
    obtain ⟨r, hr, hfr⟩ := hd
    have hrr : r = row := List.inj_on_of_nodup_map hnd hr hrow
      (by rw [← priceDiffOfRow_sku tol tolPct r d hfr]; exact hsku)
    subst hrr
    exact priceDiffOfRow_price_diff tol tolPct r d hfr

/-- Concrete merged row with prices 100.00 and 101.00 (C2 witness). -/
def c2RowEmit : MergedRow :=
  ⟨"SKU-1", [("zoho", ⟨true, some "Widget", some 100, none, some "Cat", some "active"⟩),
             ("website", ⟨true, some "Widget", some 101, none, some "Cat", some ""⟩)]⟩

/-- Concrete merged row with prices 100.00 and 100.005 (C2 witness). -/
def c2RowSuppress : MergedRow :=
  ⟨"SKU-1", [("zoho", ⟨true, some "Widget", some 100, none, some "Cat", some "active"⟩),
             ("website", ⟨true, some "Widget", some (100005 / 1000), none, some "Cat", some ""⟩)]⟩

/-- Witness for C2: with tolerance 0.01 and percent tolerance 0, prices
{100.00, 101.00} yield a difference row with `price_diff = 1.00`, while
prices {100.00, 100.005} yield none. -/
theorem claim_C2_witness :
    (0 : ℚ) ≤ 0 ∧ c2RowEmit ∈ [c2RowEmit] ∧
    (([c2RowEmit].map (fun r => r.sku)).Nodup) ∧
    (∃ d ∈ findPriceDifferences [c2RowEmit] (1 / 100) 0, d.sku = c2RowEmit.sku) ∧
    (findPriceDifferences [c2RowEmit] (1 / 100) 0).map (fun d => d.price_diff) = [1] ∧
    findPriceDifferences [c2RowSuppress] (1 / 100) 0 = [] := by
  have h1 : (0 : ℚ) ≤ 0 := le_refl 0
  have h2 : c2RowEmit ∈ [c2RowEmit] := by simp
  have h3 : (([c2RowEmit].map (fun r => r.sku)).Nodup) := by simp
  refine ⟨h1, h2, h3, ?_, ?_, ?_⟩
  · rw [(claim_C2_price_difference [c2RowEmit] (1 / 100) 0 c2RowEmit h1 h2 h3).1]
    with_unfolding_all decide
  · with_unfolding_all decide
  · with_unfolding_all decide

/-! ## C8: the name-difference gate -/

theorem nameDiffOfRow_sku (sim : String → String → ℕ) (thr : ℕ) (r : MergedRow)
    (b : NameDiffRow) (h : nameDiffOfRow sim thr r = some b) : b.sku = r.sku := by
  simp only [nameDiffOfRow] at h
  split_ifs at h with h1 h2
  injection h with h'
  rw [← h']

theorem nameDiffOfRow_isSome_iff (sim : String → String → ℕ) (thr : ℕ) (row : MergedRow)
    (hlen : 2 ≤ (rowNames row).length) :
    (nameDiffOfRow sim thr row).isSome = true ↔
      ∃ l1 x l2 y l3, (rowNames row).map (fun p => p.2) = l1 ++ x :: l2 ++ y :: l3 ∧
        sim (lowerStr x) (lowerStr y) < 100 ∧ thr ≤ sim (lowerStr x) (lowerStr y) := by
  simp only [nameDiffOfRow]
  split_ifs with h1 h2
  · omega
  · simp only [Option.isSome_some, true_iff]
    obtain ⟨l1, x, l2, y, l3, heq, hP⟩ := (pairsAny_iff _ _).mp h2
    exact ⟨l1, x, l2, y, l3, heq, of_decide_eq_true hP⟩
  · simp only [Option.isSome_none, Bool.false_eq_true, false_iff]
    rintro ⟨l1, x, l2, y, l3, heq, hP1, hP2⟩
    exact h2 ((pairsAny_iff _ _).mpr ⟨l1, x, l2, y, l3, heq, decide_eq_true ⟨hP1, hP2⟩⟩)

/-- C8: a merged row with at least two present non-empty names yields a
name-difference row iff some ordered pair of those names has case-folded
similarity strictly below 100 and at or above the threshold; identical
pairs (ratio 100) and pairs entirely below the threshold never cause a
row. The similarity function abstracts `fuzz.ratio`. -/
theorem claim_C8_name_difference (merged : List MergedRow) (sim : String → String → ℕ)
    (thr : ℕ) (row : MergedRow) (hrow : row ∈ merged)
    (hnd : (merged.map (fun r => r.sku)).Nodup) (hlen : 2 ≤ (rowNames row).length) :
    (∃ d ∈ findNameDifferences merged sim thr, d.sku = row.sku) ↔
      ∃ l1 x l2 y l3, (rowNames row).map (fun p => p.2) = l1 ++ x :: l2 ++ y :: l3 ∧
        sim (lowerStr x) (lowerStr y) < 100 ∧ thr ≤ sim (lowerStr x) (lowerStr y) := by
  rw [show findNameDifferences merged sim thr
      = merged.filterMap (nameDiffOfRow sim thr) from rfl,
    exists_mem_filterMap_key (nameDiffOfRow sim thr) (fun d => d.sku)
      (nameDiffOfRow_sku sim thr) merged row hrow hnd]
  exact nameDiffOfRow_isSome_iff sim thr row hlen

/-- Concrete merged row with two close names (C8 witness). -/
def c8Row : MergedRow :=
  ⟨"SKU-2", [("zoho", ⟨true, some "Widget Alpha", none, none, some "Cat", some ""⟩),
             ("website", ⟨true, some "Widget Beta", none, none, some "Cat", some ""⟩)]⟩

/-- Witness for C8: under a similarity function giving distinct lowered
names ratio 92 and identical ones 100, threshold 85, the row is emitted. -/
theorem claim_C8_witness :
    c8Row ∈ [c8Row] ∧ (([c8Row].map (fun r => r.sku)).Nodup) ∧
    2 ≤ (rowNames c8Row).length ∧
    (∃ d ∈ findNameDifferences [c8Row] (fun a b => if a = b then 100 else 92) 85,
      d.sku = c8Row.sku) := by
  have h2 : c8Row ∈ [c8Row] := by simp
  have h3 : (([c8Row].map (fun r => r.sku)).Nodup) := by simp
  have h4 : 2 ≤ (rowNames c8Row).length := by decide
  refine ⟨h2, h3, h4, ?_⟩
  rw [claim_C8_name_difference [c8Row] (fun a b => if a = b then 100 else 92) 85 c8Row h2 h3 h4]
  refine ⟨[], "Widget Alpha", [], "Widget Beta", [], by decide, by decide, by decide⟩

/-! ## C9: the grid cell status -/

theorem decomp_length {α : Type} {l l1 l2 l3 : List α} {x y : α}
    (h : l = l1 ++ x :: l2 ++ y :: l3) : 2 ≤ l.length := by
  subst h
  simp only [List.length_append, List.length_cons]
  omega

/-- The blank-stripped value list the grid's `_all_match` actually
compares. -/
def gridCleaned (attrName n z w g : String) : List String :=
  (gridVals attrName n z w g).filter (fun v => v ≠ "" && String.mk (pyStripL v.data) ≠ "")

theorem allMatch_iff_pairs (values : List String) (hl : 2 ≤ values.length) :
    allMatch values = true ↔
      ∀ l1 x l2 y l3,
        values.filter (fun v => v ≠ "" && String.mk (pyStripL v.data) ≠ "")
          = l1 ++ x :: l2 ++ y :: l3 → matchValue x y = some true := by
  unfold allMatch
  rw [if_neg (by omega)]
  by_cases hc : (values.filter (fun v => v ≠ "" && String.mk (pyStripL v.data) ≠ "")).length < 2
  · rw [if_pos hc]
    simp only [true_iff]
    intro l1 x l2 y l3 heqd
    have := decomp_length heqd
    omega
  · rw [if_neg hc, pairsAll_iff]
    constructor
    · intro h l1 x l2 y l3 hd
      simpa using h l1 x l2 y l3 hd
    · intro h l1 x l2 y l3 hd
      simpa using h l1 x l2 y l3 hd

/-- C9 (counterexample): the claim's sufficient condition "OK when at least
two non-empty values agree" fails: with values
`["bobcat style", "bobcat style", "50"]` two values agree (the resolver
returns Match on the identical pair), yet the cell status is `MISMATCH`
because the third value disagrees with both — the code demands that every
pair match. -/
theorem claim_C9_counterexample :
    cellStatus "Pin Size" "bobcat style" "bobcat style" "50" "" = "MISMATCH" ∧
    matchValue "bobcat style" "bobcat style" = some true ∧
    ("MISMATCH" : String) ≠ "OK" := by
  refine ⟨by decide, by decide, by decide⟩

/-- C9 (amended): the per-cell status is empty iff the cell's value set has
no non-empty value, `PARTIAL` iff it has exactly one, and with at least two
values it is `OK` iff every ordered pair of the blank-stripped values gets
verdict Match from the equivalence resolver and `MISMATCH` iff some pair
does not (a disagreeing or incomparable pair); for data-only attributes the
name-extracted value is excluded, so the status never depends on it. -/
theorem claim_C9_cell_status (attrName n z w g : String) :
    (cellStatus attrName n z w g = "" ↔ gridVals attrName n z w g = []) ∧
    (cellStatus attrName n z w g = "PARTIAL" ↔ (gridVals attrName n z w g).length = 1) ∧
    (2 ≤ (gridVals attrName n z w g).length →
      ((cellStatus attrName n z w g = "OK" ↔
        ∀ l1 x l2 y l3, gridCleaned attrName n z w g = l1 ++ x :: l2 ++ y :: l3 →
          matchValue x y = some true) ∧
       (cellStatus attrName n z w g = "MISMATCH" ↔
        ∃ l1 x l2 y l3, gridCleaned attrName n z w g = l1 ++ x :: l2 ++ y :: l3 ∧
          matchValue x y ≠ some true))) ∧
    (attrName ∈ DATA_ONLY_ATTRS → ∀ n', cellStatus attrName n' z w g = cellStatus attrName n z w g) := by
  refine ⟨?_, ?_, ?_, ?_⟩
  · simp only [cellStatus]
    split_ifs with h1 h2 h3
    · exact iff_of_true rfl h1
    · exact iff_of_false (by decide) h1
    · exact iff_of_false (by decide) h1
    · exact iff_of_false (by decide) h1
  · simp only [cellStatus]
    split_ifs with h1 h2 h3
    · exact iff_of_false (by decide) (by simp [h1])
    · exact iff_of_true rfl h2
    · exact iff_of_false (by decide) h2
    · exact iff_of_false (by decide) h2
  · intro hlen2
    have hiff := allMatch_iff_pairs (gridVals attrName n z w g) hlen2
    simp only [cellStatus]
    split_ifs with h1 h2 h3
    · rw [h1] at hlen2
      simp at hlen2
    · omega
    · have hall := hiff.mp h3
      constructor
      · exact iff_of_true rfl hall
      · refine iff_of_false (by decide) ?_
        rintro ⟨l1, x, l2, y, l3, hd, hne⟩
        exact hne (hall l1 x l2 y l3 hd)
    · constructor
      · refine iff_of_false (by decide) ?_
        intro hforall
        rw [hiff.mpr hforall] at h3
        exact h3 rfl
      · refine iff_of_true rfl ?_
        have hnall : ¬ ∀ l1 x l2 y l3,
            gridCleaned attrName n z w g = l1 ++ x :: l2 ++ y :: l3 →
              matchValue x y = some true := by
          intro hf
          exact h3 (hiff.mpr hf)
        push_neg at hnall
        exact hnall
  · intro hmem n'
    simp [cellStatus, gridVals, hmem]

/-- Witness for C9: the amended cell-status theorem applied at concrete
cells — a data-only attribute ignores the name value, and a cell with no
value at all gets the empty status. -/
theorem claim_C9_witness :
    cellStatus "Center to Center" "ignored" "10" "" "" =
      cellStatus "Center to Center" "whatever" "10" "" "" ∧
    cellStatus "Pin Size" "" "" "" "" = "" := by
  constructor
  · exact (claim_C9_cell_status "Center to Center" "whatever" "10" "" "").2.2.2
      (by decide) "ignored"
  · exact ((claim_C9_cell_status "Pin Size" "" "" "" "").1).mpr (by decide)

/-! ## C1: the cross-source merge -/

theorem string_pos_iff (k : String) : 0 < k.length ↔ k ≠ "" := by
  cases k with
  | mk d =>
    cases d with
    | nil =>
      constructor
      · intro h
        simp [String.length] at h
      · intro h
        exact absurd rfl h
    | cons c t =>
      constructor
      · intro _ he
        have : (String.mk (c :: t)).data = ("" : String).data := by rw [he]
        simp at this
      · intro _
        simp [String.length]

/-- The row built by `mergeBySku` for one SKU. -/
def mkMergedRow (sources : List (String × List SourceRecord)) (k : String) : MergedRow :=
  { sku := k, cells := sources.map (fun p => (p.1, cellOf p.2 k)) }

theorem mergeBySku_eq (sources : List (String × List SourceRecord)) :
    mergeBySku sources =
      (List.insertionSort (fun a b => strLe a b = true)
        ((sources.flatMap (fun p => (p.2.filter (fun r => 0 < r.sku.length)).map
          (fun r => r.sku))).dedup)).map (mkMergedRow sources) := rfl

/-- C1: `merge_by_sku` produces exactly one row per distinct non-empty SKU
occurring in any source, in strictly ascending code-point order; each row
carries one cell per source (in source order) whose `in_S` flag is true iff
the source has a record with that SKU, the populated fields coming from the
first such record, and all-`None` fields otherwise. -/
theorem claim_C1_merge (sources : List (String × List SourceRecord)) :
    (((mergeBySku sources).map (fun r => r.sku)).Pairwise (fun a b => List.lt a.data b.data)) ∧
    (∀ k : String, (∃ row ∈ mergeBySku sources, row.sku = k) ↔
      (k ≠ "" ∧ ∃ p ∈ sources, ∃ r ∈ p.2, r.sku = k)) ∧
    (∀ row ∈ mergeBySku sources,
      row.cells.length = sources.length ∧
      (∀ (i : ℕ) (nm : String) (df : List SourceRecord), sources[i]? = some (nm, df) →
        ∃ cell : MergedCell, row.cells[i]? = some (nm, cell) ∧
          (cell.present = true ↔ ∃ r ∈ df, r.sku = row.sku) ∧
          (∀ rec : SourceRecord, df.find? (fun r => r.sku == row.sku) = some rec →
            cell = ⟨true, some rec.product_name, rec.price, rec.sale_price,
                    some rec.category, some rec.status⟩) ∧
          (df.find? (fun r => r.sku == row.sku) = none →
            cell = ⟨false, none, none, none, none, none⟩))) := by
  have hperm := List.perm_insertionSort (fun a b => strLe a b = true)
    ((sources.flatMap (fun p => (p.2.filter (fun r => 0 < r.sku.length)).map
      (fun r => r.sku))).dedup)
  refine ⟨?_, ?_, ?_⟩
  · rw [mergeBySku_eq]
    have hmap : ((List.insertionSort (fun a b => strLe a b = true)
        ((sources.flatMap (fun p => (p.2.filter (fun r => 0 < r.sku.length)).map
          (fun r => r.sku))).dedup)).map (mkMergedRow sources)).map (fun r => r.sku)
        = List.insertionSort (fun a b => strLe a b = true)
            ((sources.flatMap (fun p => (p.2.filter (fun r => 0 < r.sku.length)).map
              (fun r => r.sku))).dedup) := by
      rw [List.map_map]
      exact List.map_id' _
    rw [hmap]
    have hsorted := List.sorted_insertionSort (fun a b => strLe a b = true)
      ((sources.flatMap (fun p => (p.2.filter (fun r => 0 < r.sku.length)).map
        (fun r => r.sku))).dedup)
    have hnd : (List.insertionSort (fun a b => strLe a b = true)
        ((sources.flatMap (fun p => (p.2.filter (fun r => 0 < r.sku.length)).map
          (fun r => r.sku))).dedup)).Nodup :=
      hperm.nodup_iff.mpr (List.nodup_dedup _)
    have hand := List.pairwise_and_iff.mpr ⟨hsorted, hnd⟩
    refine hand.imp ?_
    rintro a b ⟨hle, hne⟩
    rcases Bool.eq_false_or_eq_true (lexLt a.data b.data) with h2 | h2
    · exact (lexLt_iff_lt a.data b.data).mp h2
    · exfalso
      have hba : lexLt b.data a.data = false := by
        simpa [strLe, Bool.not_eq_true'] using hle
      exact hne (string_eq_of_data_eq (lexLt_connex h2 hba))
  · intro k
    rw [mergeBySku_eq]
    have h1 : (∃ row ∈ (List.insertionSort (fun a b => strLe a b = true)
        ((sources.flatMap (fun p => (p.2.filter (fun r => 0 < r.sku.length)).map
          (fun r => r.sku))).dedup)).map (mkMergedRow sources), row.sku = k) ↔
        k ∈ (sources.flatMap (fun p => (p.2.filter (fun r => 0 < r.sku.length)).map
          (fun r => r.sku))).dedup := by
      rw [← hperm.mem_iff]
      simp [List.mem_map, mkMergedRow]
    rw [h1, List.mem_dedup, List.mem_flatMap]
    constructor
    · rintro ⟨p, hp, hk⟩
      rw [List.mem_map] at hk
      obtain ⟨r, hr, rfl⟩ := hk
      rw [List.mem_filter] at hr
      refine ⟨?_, p, hp, r, hr.1, rfl⟩
      rw [← string_pos_iff]
      exact of_decide_eq_true hr.2
    · rintro ⟨hne, p, hp, r, hr, rfl⟩
      refine ⟨p, hp, ?_⟩
      rw [List.mem_map]
      refine ⟨r, ?_, rfl⟩
      rw [List.mem_filter]
      exact ⟨hr, decide_eq_true ((string_pos_iff r.sku).mpr hne)⟩
  · intro row hrow
    rw [mergeBySku_eq, List.mem_map] at hrow
    obtain ⟨k, hk, rfl⟩ := hrow
    constructor
    · simp [mkMergedRow]
    · intro i nm df hidx
      refine ⟨cellOf df k, ?_, ?_, ?_, ?_⟩
      · show (sources.map (fun p => (p.1, cellOf p.2 k)))[i]? = _
        rw [List.getElem?_map, hidx]
        rfl
      · show (cellOf df k).present = true ↔ ∃ r ∈ df, r.sku = (mkMergedRow sources k).sku
        unfold cellOf
        cases hf : df.find? (fun r => r.sku == k) with
        | none =>
          simp only [Bool.false_eq_true, false_iff]
          rintro ⟨r, hr, hsku⟩
          have : (df.find? (fun r => r.sku == k)).isSome = true :=
            List.find?_isSome.mpr ⟨r, hr, by simp [hsku, mkMergedRow]⟩
          rw [hf] at this
          exact absurd this (by simp)
        | some r =>
          simp only [true_iff]
          exact ⟨r, List.mem_of_find?_eq_some hf,
            by simpa using List.find?_some hf⟩
      · intro rec hrec
        show cellOf df k = _
        unfold cellOf
        rw [show df.find? (fun r => r.sku == (mkMergedRow sources k).sku)
            = df.find? (fun r => r.sku == k) from rfl] at hrec
        rw [hrec]
      · intro hnone
        show cellOf df k = _
        unfold cellOf
        rw [show df.find? (fun r => r.sku == (mkMergedRow sources k).sku)
            = df.find? (fun r => r.sku == k) from rfl] at hnone
        rw [hnone]

/-- Concrete two-source input for the C1 witness. -/
def c1Sources : List (String × List SourceRecord) :=
  [("zoho", [⟨"B-2", "Second", none, none, "Cat", "active"⟩,
             ⟨"A-1", "First", none, none, "Cat", ""⟩,
             ⟨"", "NoSku", none, none, "Cat", ""⟩]),
   ("website", [⟨"A-1", "FirstWeb", none, none, "CatW", ""⟩])]

/-- Witness for C1: the merge specification applied at a concrete
two-source input. -/
theorem claim_C1_witness :
    (((mergeBySku c1Sources).map (fun r => r.sku)).Pairwise
      (fun a b => List.lt a.data b.data)) ∧
    (mergeBySku c1Sources).map (fun r => r.sku) = ["A-1", "B-2"] :=
  ⟨(claim_C1_merge c1Sources).1, by decide⟩

end DataRecon
